import Mathlib

set_option maxHeartbeats 1000000
set_option maxRecDepth 10000

/-!
Verification development for the Sandamile repository (Ethiopian Bible
Planner, `src/scripts/bible-planner.js`, and the marketing-site widget
collection in the second source file).

The JavaScript code is shallowly embedded: JavaScript objects used as
string-keyed maps become association lists, JavaScript numbers are
modelled as integers (all numbers occurring in the verified code paths
are integer-valued), and the browser storage / JSON platform primitives
are modelled by explicit Lean functions.  Fields of the static content
data that no verified claim mentions (devotional free text such as
study questions and memory verses) are omitted from the embedding; the
structurally relevant fields (identifiers, week numbers, day numbers,
counts) are transcribed exactly from the source.
-/

namespace BiblePlanner

/-! ### JavaScript values and the JSON codec

`JValue` models a JSON-representable JavaScript value (numbers
restricted to integers).  `jstringify` models `JSON.stringify` and
`jparse` models `JSON.parse`, both as specified by ECMAScript for such
values: strings are quoted with `"`, the characters `"` and `\` and the
control characters are escaped (`\b \t \n \f \r`, otherwise `\u00XX`
with lowercase hex), arrays and objects use bracket/comma syntax with
no whitespace. -/

inductive JValue where
  | jnull : JValue
  | jbool : Bool → JValue
  | jnum : Int → JValue
  | jstr : String → JValue
  | jarr : List JValue → JValue
  | jobj : List (String × JValue) → JValue

open JValue

/-- Left brace character (written via its code point). -/
def lbrace : Char := Char.ofNat 123

/-- Right brace character (written via its code point). -/
def rbrace : Char := Char.ofNat 125

/-- Decimal digit character for a digit value `d < 10`. -/
def digitChar (d : Nat) : Char := Char.ofNat (48 + d)

/-- Lowercase hexadecimal digit character for `d < 16`. -/
def hexChar (d : Nat) : Char := if d < 10 then Char.ofNat (48 + d) else Char.ofNat (87 + d)

/-- Little-endian decimal digits of a natural number (empty for `0`). -/
def digitsLE (n : Nat) : List Nat :=
  if n = 0 then [] else (n % 10) :: digitsLE (n / 10)
termination_by n
decreasing_by exact Nat.div_lt_self (Nat.pos_of_ne_zero (by assumption)) (by norm_num)

/-- Decimal representation of a natural number, as characters. -/
def natChars (n : Nat) : List Char :=
  if n = 0 then ['0'] else (digitsLE n).reverse.map digitChar

/-- Decimal representation of an integer, as characters (JS number-to-string
for integer-valued numbers). -/
def intChars : Int → List Char
  | .ofNat n => natChars n
  | .negSucc n => '-' :: natChars (n + 1)

/-- JSON string escaping of one character, following ECMAScript
`QuoteJSONString`. -/
def escChar (c : Char) : List Char :=
  if c = '\"' then ['\\', '\"']
  else if c = '\\' then ['\\', '\\']
  else if c = '\x08' then ['\\', 'b']
  else if c = '\t' then ['\\', 't']
  else if c = '\n' then ['\\', 'n']
  else if c = '\x0c' then ['\\', 'f']
  else if c = '\r' then ['\\', 'r']
  else if c.toNat < 32 then
    ['\\', 'u', '0', '0', hexChar (c.toNat / 16), hexChar (c.toNat % 16)]
  else [c]

/-- JSON string escaping of a character sequence. -/
def escChars : List Char → List Char
  | [] => []
  | c :: cs => escChar c ++ escChars cs

mutual

/-- Model of `JSON.stringify` on JSON-representable values. -/
def jstringify : JValue → List Char
  | .jnull => ['n', 'u', 'l', 'l']
  | .jbool true => ['t', 'r', 'u', 'e']
  | .jbool false => ['f', 'a', 'l', 's', 'e']
  | .jnum n => intChars n
  | .jstr s => '\"' :: (escChars s.data ++ ['\"'])
  | .jarr xs => '[' :: strArr xs
  | .jobj fs => lbrace :: strObj fs

/-- Serialisation of the elements of an array, including the closing
bracket. -/
def strArr : List JValue → List Char
  | [] => [']']
  | v :: vs =>
    jstringify v ++ (match vs with
      | [] => [']']
      | _ :: _ => ',' :: strArr vs)

/-- Serialisation of the fields of an object, including the closing
brace. -/
def strObj : List (String × JValue) → List Char
  | [] => [rbrace]
  | (k, v) :: fs =>
    ('\"' :: (escChars k.data ++ ['\"'])) ++ ':' :: jstringify v ++ (match fs with
      | [] => [rbrace]
      | _ :: _ => ',' :: strObj fs)

end

/-- Value of a hexadecimal digit character. -/
def hexVal (c : Char) : Option Nat :=
  if '0' ≤ c ∧ c ≤ '9' then some (c.toNat - 48)
  else if 'a' ≤ c ∧ c ≤ 'f' then some (c.toNat - 87)
  else if 'A' ≤ c ∧ c ≤ 'F' then some (c.toNat - 55)
  else none

/-- Accumulating decimal-digit reader: consumes leading digits, returns the
accumulated value and the remaining input. -/
def parseDigitsAux (acc : Nat) : List Char → Nat × List Char
  | [] => (acc, [])
  | c :: cs =>
    if c.isDigit then parseDigitsAux (10 * acc + (c.toNat - 48)) cs
    else (acc, c :: cs)

/-- Reads a nonempty digit sequence as a natural number. -/
def parseDigits : List Char → Option (Nat × List Char)
  | [] => none
  | c :: cs => if c.isDigit then some (parseDigitsAux (c.toNat - 48) cs) else none

mutual

/-- Reads the body of a JSON string literal up to and including the closing
quote, undoing the escapes. -/
def parseStr : List Char → Option (List Char × List Char)
  | [] => none
  | c :: cs =>
    if c = '\"' then some ([], cs)
    else if c = '\\' then parseEsc cs
    else (parseStr cs).map (fun p => (c :: p.1, p.2))
termination_by s => s.length
decreasing_by
  · simp_arith
  · simp_arith

/-- Reads one escape sequence (after the backslash) followed by the rest of
the string body. -/
def parseEsc : List Char → Option (List Char × List Char)
  | [] => none
  | e :: cs =>
    if e = '\"' then (parseStr cs).map (fun p => ('\"' :: p.1, p.2))
    else if e = '\\' then (parseStr cs).map (fun p => ('\\' :: p.1, p.2))
    else if e = 'b' then (parseStr cs).map (fun p => ('\x08' :: p.1, p.2))
    else if e = 't' then (parseStr cs).map (fun p => ('\t' :: p.1, p.2))
    else if e = 'n' then (parseStr cs).map (fun p => ('\n' :: p.1, p.2))
    else if e = 'f' then (parseStr cs).map (fun p => ('\x0c' :: p.1, p.2))
    else if e = 'r' then (parseStr cs).map (fun p => ('\r' :: p.1, p.2))
    else if e = 'u' then
      match hexVal (cs.getD 0 'x'), hexVal (cs.getD 1 'x'),
          hexVal (cs.getD 2 'x'), hexVal (cs.getD 3 'x') with
      | some a, some b, some c, some d =>
        (parseStr (cs.drop 4)).map
          (fun q => (Char.ofNat (((a * 16 + b) * 16 + c) * 16 + d) :: q.1, q.2))
      | _, _, _, _ => none
    else none
termination_by s => s.length
decreasing_by
  · simp_arith
  · simp_arith
  · simp_arith
  · simp_arith
  · simp_arith
  · simp_arith
  · simp_arith
  · simp only [List.length_cons, List.length_drop]; omega

end

/-- Consumes the literal character sequence `kw` from the front of the
input. -/
def afterLit : List Char → List Char → Option (List Char)
  | [], s => some s
  | _ :: _, [] => none
  | k :: kw, c :: s => if c = k then afterLit kw s else none

mutual

/-- Fuel-indexed model of the `JSON.parse` value grammar (numbers restricted
to integers, no interior whitespace — exactly the language `jstringify`
produces). -/
def parseValue : Nat → List Char → Option (JValue × List Char)
  | 0, _ => none
  | _ + 1, [] => none
  | fuel + 1, c :: cs =>
    if c = 'n' then (afterLit ['u', 'l', 'l'] cs).map (fun r => (.jnull, r))
    else if c = 't' then (afterLit ['r', 'u', 'e'] cs).map (fun r => (.jbool true, r))
    else if c = 'f' then (afterLit ['a', 'l', 's', 'e'] cs).map (fun r => (.jbool false, r))
    else if c = '\"' then (parseStr cs).map (fun p => (.jstr (String.mk p.1), p.2))
    else if c = '[' then
      if cs.head? = some ']' then some (.jarr [], cs.tail)
      else (parseItems fuel cs).map (fun p => (.jarr p.1, p.2))
    else if c = lbrace then
      if cs.head? = some rbrace then some (.jobj [], cs.tail)
      else (parseFields fuel cs).map (fun p => (.jobj p.1, p.2))
    else if c = '-' then (parseDigits cs).map (fun p => (.jnum (-(p.1 : Int)), p.2))
    else if c.isDigit then (parseDigits (c :: cs)).map (fun p => (.jnum (p.1 : Int), p.2))
    else none

/-- Fuel-indexed parser for the elements of a nonempty array, consuming the
closing bracket. -/
def parseItems : Nat → List Char → Option (List JValue × List Char)
  | 0, _ => none
  | fuel + 1, s =>
    match parseValue fuel s with
    | none => none
    | some (v, r) =>
      if r.head? = some ',' then (parseItems fuel r.tail).map (fun p => (v :: p.1, p.2))
      else if r.head? = some ']' then some ([v], r.tail)
      else none

/-- Fuel-indexed parser for the fields of a nonempty object, consuming the
closing brace. -/
def parseFields : Nat → List Char → Option (List (String × JValue) × List Char)
  | 0, _ => none
  | _ + 1, [] => none
  | fuel + 1, c :: cs =>
    if c = '\"' then
      match parseStr cs with
      | none => none
      | some (k, r) =>
        if r.head? = some ':' then
          match parseValue fuel r.tail with
          | none => none
          | some (v, r') =>
            if r'.head? = some ',' then
              (parseFields fuel r'.tail).map (fun p => ((String.mk k, v) :: p.1, p.2))
            else if r'.head? = some rbrace then some ([(String.mk k, v)], r'.tail)
            else none
        else none
    else none

end

/-- Model of `JSON.parse`: the whole input must be consumed. -/
def jparse (s : List Char) : Option JValue :=
  match parseValue (s.length + 1) s with
  | some (v, []) => some v
  | _ => none

/-- A character sequence that does not begin with a decimal digit (the
continuations a serialised number can be followed by). -/
def NoDigitStart : List Char → Prop
  | [] => True
  | c :: _ => c.isDigit = false

/-! ### JavaScript string-keyed objects

The planner uses plain objects as maps (`expandedWeeks`,
`completedReadings`, `memoryStorage`, form drafts).  They are modelled as
association lists in property-insertion order, with the JS assignment
`obj[k] = v` updating in place or appending. -/

/-- JavaScript object property assignment `obj[k] = v`. -/
def objSet {α : Type} : List (String × α) → String → α → List (String × α)
  | [], k, v => [(k, v)]
  | (k', v') :: rest, k, v =>
    if k' = k then (k, v) :: rest else (k', v') :: objSet rest k v

/-- JavaScript object property read `obj[k]` (`none` models `undefined`). -/
def objGet {α : Type} : List (String × α) → String → Option α
  | [], _ => none
  | (k', v') :: rest, k => if k' = k then some v' else objGet rest k

/-! ### StorageManager (bible-planner.js lines 38-110)

`StorageManager.get`/`set` wrap either the native `window.storage` API
(values serialised with `JSON.stringify` and revived with `JSON.parse`)
or a plain-object in-memory fallback that stores values directly.  The
native store is modelled as an association list from keys to serialised
character data; `window.storage.set` is modelled as an upsert that
succeeds. -/

/-- `StorageManager.set` with the native-storage backend: serialises the
value and stores it under the key; returns the updated store and the
success flag. -/
def smSetNative (store : List (String × List Char)) (key : String) (value : JValue) :
    List (String × List Char) × Bool :=
  (objSet store key (jstringify value), true)

/-- `StorageManager.get` with the native-storage backend: missing key or a
parse failure yields the default value. -/
def smGetNative (store : List (String × List Char)) (key : String) (deflt : JValue) :
    JValue :=
  match objGet store key with
  | none => deflt
  | some data => (jparse data).getD deflt

/-- `StorageManager.set` with the in-memory fallback: the source serialises
the value (which for JSON-representable values cannot throw) but stores the
value itself in `memoryStorage`. -/
def smSetMemory (mem : List (String × JValue)) (key : String) (value : JValue) :
    List (String × JValue) × Bool :=
  (objSet mem key value, true)

/-- `StorageManager.get` with the in-memory fallback: `undefined` yields the
default value. -/
def smGetMemory (mem : List (String × JValue)) (key : String) (deflt : JValue) : JValue :=
  (objGet mem key).getD deflt

/-! ### Planner state (bible-planner.js lines 306-315, 1172-1230) -/

/-- The planner state record `this.state`: a flat record of eight fields. -/
structure State where
  activeTab : String
  selectedMonth : String
  selectedPlan : String
  expandedWeeks : List (String × Bool)
  completedReadings : List (String × Bool)
  showStats : Bool
  darkMode : Bool
  reminderTime : String

/-- The defaults assigned in the `EthiopianBiblePlanner` constructor. -/
def defaultState : State where
  activeTab := "calendar"
  selectedMonth := "meskerem"
  selectedPlan := "chronological"
  expandedWeeks := []
  completedReadings := []
  showStats := false
  darkMode := false
  reminderTime := "07:00"

/-- A partial state record: an object holding some subset of the state
fields, as passed to `setState` or read back from storage. -/
structure PartialState where
  activeTab : Option String := none
  selectedMonth : Option String := none
  selectedPlan : Option String := none
  expandedWeeks : Option (List (String × Bool)) := none
  completedReadings : Option (List (String × Bool)) := none
  showStats : Option Bool := none
  darkMode : Option Bool := none
  reminderTime : Option String := none

/-- JavaScript object spread `{ ...s, ...p }` on the state record: every
field present in `p` overrides the corresponding field of `s`. -/
def mergeState (s : State) (p : PartialState) : State where
  activeTab := p.activeTab.getD s.activeTab
  selectedMonth := p.selectedMonth.getD s.selectedMonth
  selectedPlan := p.selectedPlan.getD s.selectedPlan
  expandedWeeks := p.expandedWeeks.getD s.expandedWeeks
  completedReadings := p.completedReadings.getD s.completedReadings
  showStats := p.showStats.getD s.showStats
  darkMode := p.darkMode.getD s.darkMode
  reminderTime := p.reminderTime.getD s.reminderTime

/-- `loadState`: fetches the record saved under `'bible-planner-state'`
(`fetch` models `this.storage.get` with default `null`; `none` is a missing
or unreadable record) and merges it into the default state. -/
def loadState (fetch : String → Option PartialState) : State :=
  match fetch "bible-planner-state" with
  | none => defaultState
  | some p => mergeState defaultState p

/-- A scheduled debounced write: `StorageManager.set` will be called with
this key and, serialised, this state. -/
structure ScheduledSave where
  key : String
  value : State

/-- `saveStateDebounced`: resets the debounce timer and schedules a write of
the entire current state under the fixed key. -/
def saveStateDebounced (s : State) : ScheduledSave :=
  ⟨"bible-planner-state", s⟩

/-- `setState`: spreads the update over the current state and schedules the
debounced save of the new state (the subsequent `updateUI` call touches the
DOM only). -/
def setState (s : State) (p : PartialState) : State × ScheduledSave :=
  (mergeState s p, saveStateDebounced (mergeState s p))

/-- The JSON value the scheduled save serialises: `JSON.stringify(this.state)`
with the constructor's field order. -/
def encodeState (s : State) : JValue :=
  jobj [("activeTab", jstr s.activeTab),
        ("selectedMonth", jstr s.selectedMonth),
        ("selectedPlan", jstr s.selectedPlan),
        ("expandedWeeks", jobj (s.expandedWeeks.map (fun kv => (kv.1, jbool kv.2)))),
        ("completedReadings", jobj (s.completedReadings.map (fun kv => (kv.1, jbool kv.2)))),
        ("showStats", jbool s.showStats),
        ("darkMode", jbool s.darkMode),
        ("reminderTime", jstr s.reminderTime)]

/-- The field names of a serialised object value. -/
def objKeys : JValue → List String
  | .jobj fs => fs.map Prod.fst
  | _ => []

/-! ### Static content data (bible-planner.js lines 343-1126)

`initializeAllData` fills the month list, holy days, ministry events,
the chronological plan, the 90-day New Testament plan, and the
discipleship weeks with fixed literals.  Devotional free-text fields
that no claim mentions (focus, readings, key themes, study questions,
memory verses, applications, curriculum text, chapter counts) are
omitted; all identifiers, week numbers, day numbers and counts are
transcribed exactly. -/

/-- One Ethiopian calendar month (`initializeMonthsAndEvents`). -/
structure EthMonth where
  id : String
  name : String
  days : Nat
  gregorian : String
  season : String

def ethiopianMonths : List EthMonth :=
  [⟨"meskerem", "Meskerem (መስከረም)", 30, "Sep 11 - Oct 10, 2024", "Spring"⟩,
   ⟨"tikimt", "Tikimt (ጥቅምት)", 30, "Oct 11 - Nov 9, 2024", "Spring"⟩,
   ⟨"hidar", "Hidar (ኅዳር)", 30, "Nov 10 - Dec 9, 2024", "Spring"⟩,
   ⟨"tahsas", "Tahsas (ታኅሣሥ)", 30, "Dec 10, 2024 - Jan 8, 2025", "Winter"⟩,
   ⟨"tir", "Tir (ጥር)", 30, "Jan 9 - Feb 7, 2025", "Winter"⟩,
   ⟨"yekatit", "Yekatit (የካቲት)", 30, "Feb 8 - Mar 9, 2025", "Winter"⟩,
   ⟨"megabit", "Megabit (መጋቢት)", 30, "Mar 10 - Apr 8, 2025", "Summer"⟩,
   ⟨"miazia", "Miazia (ሚያዝያ)", 30, "Apr 9 - May 8, 2025", "Summer"⟩,
   ⟨"ginbot", "Ginbot (ግንቦት)", 30, "May 9 - Jun 7, 2025", "Summer"⟩,
   ⟨"sene", "Sene (ሰኔ)", 30, "Jun 8 - Jul 7, 2025", "Rainy"⟩,
   ⟨"hamle", "Hamle (ሐምሌ)", 30, "Jul 8 - Aug 6, 2025", "Rainy"⟩,
   ⟨"nehase", "Nehase (ነሐሴ)", 30, "Aug 7 - Sep 5, 2025", "Rainy"⟩,
   ⟨"pagume", "Pagume (ጳጉሜን)", 5, "Sep 6-10, 2025", "Special"⟩]

/-- One holy day (`initializeMonthsAndEvents`). -/
structure HolyDay where
  month : String
  day : Nat
  name : String
  date : String
  description : String

def holyDays : List HolyDay :=
  [⟨"meskerem", 1, "Ethiopian New Year (እንቁጣጣሽ)", "Sep 11, 2025", "New Year celebration"⟩,
   ⟨"meskerem", 17, "Finding of True Cross (መስቀል)", "Sep 27, 2025", "Meskel festival"⟩,
   ⟨"tahsas", 29, "Ethiopian Christmas (ገና/ልደት)", "Jan 7, 2026", "Birth of Christ"⟩,
   ⟨"tir", 11, "Epiphany/Timkat (ጥምቀት)", "Jan 19, 2026", "Baptism of Jesus"⟩,
   ⟨"nehase", 16, "Assumption of Mary (ፍልሰታ)", "Aug 22, 2026", "Filseta celebration"⟩]

/-- One ministry event (`initializeMonthsAndEvents`); `eventType` embeds the
source field `type`. -/
structure MinistryEvent where
  month : String
  day : Nat
  name : String
  date : String
  eventType : String
  description : String

def ministryEvents : List MinistryEvent :=
  [⟨"tir", 4, "Ministry Establishment", "Jan 12, 2025", "milestone",
    "Foundation of ministry work"⟩,
   ⟨"meskerem", 1, "Phase 1 Launch (Arsi & Bale)", "Sep 11, 2025", "launch",
    "Beginning outreach in Arsi and Bale regions"⟩,
   ⟨"megabit", 1, "Mid-Year Evaluation", "Mar 10, 2026", "evaluation",
    "Review progress and adjust strategies"⟩,
   ⟨"nehase", 30, "Phase 1 Completion", "Sep 5, 2026", "milestone",
    "Celebrate first year achievements"⟩]

/-- One month of the chronological plan (`initializeChronologicalPlan`):
`weeklyBreakdown` keeps the `week` numbers of the weekly entries. -/
structure MonthPlan where
  weeks : Nat
  reading : String
  theme : String
  weeklyBreakdown : List Nat

/-- The chronological plan, keyed by month identifier, in source order. -/
def chronologicalPlan : List (String × MonthPlan) :=
  [("meskerem", ⟨4, "Genesis 1-50; Exodus 1-14", "Creation to Exodus", [1, 2, 3, 4]⟩),
   ("tikimt", ⟨4, "Exodus 15-40; Leviticus 1-27", "Wilderness & Law", [5, 6, 7, 8]⟩),
   ("hidar", ⟨4, "Numbers 1-36; Deuteronomy 1-34", "Wilderness Wanderings", [9, 10, 11, 12]⟩),
   ("tahsas", ⟨4, "Joshua 1-24; Judges 1-21; Ruth 1-4", "Conquest & Judges", [13, 14, 15, 16]⟩),
   ("tir", ⟨4, "1 Samuel 1-31; 2 Samuel 1-24", "United Kingdom", [17, 18, 19, 20]⟩),
   ("yekatit", ⟨4, "1 Kings 1-22; 2 Kings 1-25; 1 Chronicles 1-29", "Divided Kingdom",
     [21, 22, 23, 24]⟩),
   ("megabit", ⟨4, "Ezra 1-10; Nehemiah 1-13; Esther 1-10; Job 1-42", "Return & Restoration",
     [25, 26, 27, 28]⟩),
   ("miazia", ⟨4, "Psalms 1-150; Proverbs 1-31", "Wisdom & Worship", [29, 30, 31, 32]⟩),
   ("ginbot", ⟨4, "Ecclesiastes 1-12; Song of Songs 1-8; Isaiah 1-66", "Prophets Begin",
     [33, 34, 35, 36]⟩),
   ("sene", ⟨4, "Jeremiah 1-52; Lamentations 1-5", "Weeping Prophet", [37, 38, 39, 40]⟩),
   ("hamle", ⟨4, "Ezekiel 1-48; Daniel 1-12", "Exile Prophets", [41, 42, 43, 44]⟩),
   ("nehase", ⟨4, "Minor Prophets & Gospels", "Prophecy Fulfilled", [45, 46, 47, 48]⟩),
   ("pagume", ⟨1, "Acts & Revelation", "Church & Eternity", [49]⟩)]

/-- One section of the 90-day plan (`initializeNT90Plan`): `dailyBreakdown`
keeps the `day` numbers of the daily entries. -/
structure NTSection where
  days : String
  dailyBreakdown : List Nat

def ntIntensive : List NTSection :=
  [⟨"1-9", [1, 2, 3, 4, 5, 6, 7, 8, 9]⟩,
   ⟨"10-15", [10, 11, 12, 13, 14, 15]⟩,
   ⟨"16-23", [16, 17, 18, 19, 20, 21, 22, 23]⟩,
   ⟨"24-30", [24, 25, 26, 27, 28, 29, 30]⟩,
   ⟨"31-45", [31, 32, 33, 34, 35, 36, 37, 38, 39, 40]⟩,
   ⟨"46-60", [46, 47, 48, 49, 50, 51, 52, 53, 54, 55, 56, 57, 58]⟩,
   ⟨"61-75", [61, 62, 63, 64, 65, 66, 67, 68, 69, 70, 71, 72, 73, 74, 75]⟩,
   ⟨"76-90", [76, 77, 78, 79, 80, 81, 82, 83, 84, 85, 86, 87, 88, 89, 90]⟩]

/-- The `week` numbers of the sixteen discipleship weeks
(`initializeDiscipleshipWeeks`). -/
def discipleshipWeeks : List Nat :=
  [1, 2, 3, 4, 5, 6, 7, 8, 9, 10, 11, 12, 13, 14, 15, 16]

/-! ### Reading identifiers (renderWeekCard, renderNTSection, renderNTDay,
renderDiscipleshipWeek) -/

/-- Identifier of a chronological-plan week: `chrono-monthId-weekNumber`. -/
def chronoWeekId (monthId : String) (week : Nat) : String :=
  "chrono-" ++ monthId ++ "-" ++ toString week

/-- Identifier of a 90-day-plan section: `nt90-sectionIndex`. -/
def ntSectionId (idx : Nat) : String := "nt90-" ++ toString idx

/-- Identifier of a 90-day-plan day: `sectionId-day-dayNumber`. -/
def ntDayId (sectionId : String) (day : Nat) : String :=
  sectionId ++ "-day-" ++ toString day

/-- Identifier of a discipleship week: `disc-weekNumber`. -/
def discWeekId (week : Nat) : String := "disc-" ++ toString week

/-! ### The application object -/

/-- The `EthiopianBiblePlanner` instance: the mutable state plus the content
data initialised by `initializeAllData`. -/
structure App where
  state : State
  ethiopianMonths : List EthMonth
  holyDays : List HolyDay
  ministryEvents : List MinistryEvent
  chronologicalPlan : List (String × MonthPlan)
  ntIntensive : List NTSection
  discipleshipWeeks : List Nat

/-- The application right after the constructor (defaults assigned,
`initializeAllData` run). -/
def initApp : App where
  state := defaultState
  ethiopianMonths := ethiopianMonths
  holyDays := holyDays
  ministryEvents := ministryEvents
  chronologicalPlan := chronologicalPlan
  ntIntensive := ntIntensive
  discipleshipWeeks := discipleshipWeeks

/-- The content-data fields of the application (everything except
`state`). -/
def contentOf (a : App) :
    List EthMonth × List HolyDay × List MinistryEvent ×
      List (String × MonthPlan) × List NTSection × List Nat :=
  (a.ethiopianMonths, a.holyDays, a.ministryEvents,
   a.chronologicalPlan, a.ntIntensive, a.discipleshipWeeks)

/-- `setState` at the application level: the method assigns `this.state`
only. -/
def appSetState (a : App) (p : PartialState) : App × ScheduledSave :=
  ({ a with state := (setState a.state p).1 }, (setState a.state p).2)

/-- `toggleReading`: copies `completedReadings`, flips the entry for
`readingId` (an absent key reads as `undefined`, so the first toggle stores
`true`), and routes the change through `setState`. -/
def toggleReading (a : App) (readingId : String) : App × ScheduledSave :=
  appSetState a
    { completedReadings :=
        some (objSet a.state.completedReadings readingId
          (!((objGet a.state.completedReadings readingId).getD false))) }

/-- A validated import file (`validateImportData` guarantees a truthy
`version` and an object `completedReadings`; the other fields may be
absent). -/
structure ImportData where
  completedReadings : List (String × Bool)
  selectedMonth : Option String := none
  selectedPlan : Option String := none
  expandedWeeks : Option (List (String × Bool)) := none

/-- JavaScript `x || d` for an optional string (absent and empty strings are
falsy). -/
def jsOrString (x : Option String) (d : String) : String :=
  match x with
  | none => d
  | some s => if s = "" then d else s

/-- `importProgress` on a validated file whose checksum was accepted: applies
the four fields through `setState` with `||` defaults. -/
def importProgress (a : App) (data : ImportData) : App × ScheduledSave :=
  appSetState a
    { completedReadings := some data.completedReadings
      selectedMonth := some (jsOrString data.selectedMonth "meskerem")
      selectedPlan := some (jsOrString data.selectedPlan "chronological")
      expandedWeeks := some (data.expandedWeeks.getD []) }

/-- `renderChronologicalPlan`: pure rendering — the app is returned unchanged
together with the reading identifiers of the week cards it renders (the HTML
text around them is not modelled). -/
def renderChronologicalPlan (a : App) : App × List String :=
  (a, a.chronologicalPlan.flatMap (fun mp => mp.2.weeklyBreakdown.map (chronoWeekId mp.1)))

/-- `renderNT90Plan`: section rows followed by their day rows, in render
order. -/
def renderNT90Plan (a : App) : App × List String :=
  (a, a.ntIntensive.enum.flatMap (fun p =>
    ntSectionId p.1 :: p.2.dailyBreakdown.map (ntDayId (ntSectionId p.1))))

/-- `renderDiscipleship`: the discipleship week cards. -/
def renderDiscipleship (a : App) : App × List String :=
  (a, a.discipleshipWeeks.map discWeekId)

/-- All reading identifiers generated by the three plan renderers. -/
def allReadingIds : List String :=
  (renderChronologicalPlan initApp).2 ++ (renderNT90Plan initApp).2 ++
    (renderDiscipleship initApp).2

/-! ### AnalyticsManager (bible-planner.js lines 197-250) and progress -/

/-- `Object.values(c).filter(Boolean).length`. -/
def countCompleted (c : List (String × Bool)) : Nat :=
  (c.filter (fun kv => kv.2)).length

/-- `AnalyticsManager.calculateStreak`: filters the completed entries, sorts
them by key descending (`localeCompare` modelled by the string order; the
sort cannot change the length), and returns the count capped at 30.  The
date computed at the top of the method is never used. -/
def calculateStreak (c : List (String × Bool)) : Nat :=
  let sortedReadings :=
    (c.filter (fun kv => kv.2)).insertionSort (fun a b => ¬ a.1 < b.1)
  if sortedReadings.length > 0 then min sortedReadings.length 30 else 0

/-- JavaScript `Math.round` (round half toward positive infinity), on
rationals. -/
def jsRound (q : ℚ) : ℤ := ⌊q + 1 / 2⌋

/-- The record returned by `AnalyticsManager.getProgressInsights`. -/
structure Insights where
  percentComplete : ℤ
  readingsCompleted : Nat
  readingsRemaining : ℤ
  currentStreak : Nat
  totalReadings : Nat

/-- `AnalyticsManager.getProgressInsights` (the arithmetic is modelled
exactly over rationals; all quantities involved are small integers). -/
def getProgressInsights (c : List (String × Bool)) (totalReadings : Nat) : Insights where
  percentComplete := jsRound (((countCompleted c : ℚ) / totalReadings) * 100)
  readingsCompleted := countCompleted c
  readingsRemaining := (totalReadings : ℤ) - countCompleted c
  currentStreak := calculateStreak c
  totalReadings := totalReadings

/-- `getTotalReadings`: sums `plan.weeks` over the chronological plan. -/
def getTotalReadings : Nat :=
  (chronologicalPlan.map Prod.snd).foldl (fun sum plan => sum + plan.weeks) 0

/-! ### FormAutoSave (second source file, lines 552-611) -/

/-- `FormAutoSave.saveDraft`: builds the draft object from the form data in
entry order, skipping every field named `website` or `password`; the draft
is then written to `localStorage` as JSON. -/
def saveDraft (formData : List (String × String)) : List (String × String) :=
  formData.foldl
    (fun data kv =>
      if kv.1 ≠ "website" ∧ kv.1 ≠ "password" then objSet data kv.1 kv.2 else data)
    []

/-! ### Round-trip lemmas for the JSON codec -/

theorem string_mk_data (s : String) : String.mk s.data = s := by
  cases s; rfl

theorem digitChar_isDigit : ∀ d, d < 10 → (digitChar d).isDigit = true := by decide

theorem digitChar_toNat : ∀ d, d < 10 → (digitChar d).toNat - 48 = d := by decide

theorem hexVal_hexChar : ∀ d, d < 16 → hexVal (hexChar d) = some d := by decide

theorem parseDigitsAux_stop (acc : Nat) (rest : List Char) (h : NoDigitStart rest) :
    parseDigitsAux acc rest = (acc, rest) := by
  cases rest with
  | nil => rfl
  | cons c cs =>
    simp only [NoDigitStart] at h
    simp [parseDigitsAux, h]

theorem parseDigitsAux_run (ds : List Nat) (hd : ∀ d ∈ ds, d < 10) (acc : Nat)
    (rest : List Char) (h : NoDigitStart rest) :
    parseDigitsAux acc (ds.map digitChar ++ rest) =
      (ds.foldl (fun a d => 10 * a + d) acc, rest) := by
  induction ds generalizing acc with
  | nil => simpa using parseDigitsAux_stop acc rest h
  | cons d ds ih =>
    have hd10 : d < 10 := hd d (by simp)
    simp only [List.map_cons, List.cons_append, parseDigitsAux,
      digitChar_isDigit d hd10, if_true, digitChar_toNat d hd10, List.foldl_cons]
    exact ih (fun x hx => hd x (by simp [hx])) _

theorem digitsLE_lt_ten : ∀ n, ∀ d ∈ digitsLE n, d < 10 := by
  intro n
  induction n using Nat.strong_induction_on with
  | _ n ih =>
    rw [digitsLE]
    split
    · simp
    · rename_i hn
      intro d hdmem
      rcases List.mem_cons.mp hdmem with h | h
      · subst h; exact Nat.mod_lt _ (by norm_num)
      · exact ih (n / 10) (Nat.div_lt_self (Nat.pos_of_ne_zero hn) (by norm_num)) d h

theorem digitsLE_ne_nil {n : Nat} (hn : n ≠ 0) : digitsLE n ≠ [] := by
  rw [digitsLE]; simp [hn]

theorem foldl_digitsLE (n : Nat) :
    (digitsLE n).reverse.foldl (fun a d => 10 * a + d) 0 = n := by
  induction n using Nat.strong_induction_on with
  | _ n ih =>
    rw [digitsLE]
    split
    · rename_i h; simp [h]
    · rename_i hn
      rw [List.reverse_cons, List.foldl_append,
        ih (n / 10) (Nat.div_lt_self (Nat.pos_of_ne_zero hn) (by norm_num))]
      simp only [List.foldl_cons, List.foldl_nil]
      omega

theorem natChars_head (n : Nat) :
    ∃ h t, natChars n = h :: t ∧ h.isDigit = true := by
  by_cases hn : n = 0
  · exact ⟨'0', [], by simp [natChars, hn], by decide⟩
  · rw [natChars, if_neg hn]
    cases hrev : (digitsLE n).reverse with
    | nil =>
      exact absurd (by simpa using congrArg List.reverse hrev) (digitsLE_ne_nil hn)
    | cons d ds =>
      refine ⟨digitChar d, ds.map digitChar, by simp, ?_⟩
      exact digitChar_isDigit d (digitsLE_lt_ten n d (by rw [← List.mem_reverse, hrev]; simp))

theorem natChars_ne_nil (n : Nat) : natChars n ≠ [] := by
  obtain ⟨h, t, heq, _⟩ := natChars_head n
  simp [heq]

theorem parseDigits_natChars (n : Nat) (rest : List Char) (h : NoDigitStart rest) :
    parseDigits (natChars n ++ rest) = some (n, rest) := by
  by_cases hn : n = 0
  · subst hn
    have h0 : ('0').isDigit = true := by decide
    simp [natChars, parseDigits, h0, parseDigitsAux_stop _ _ h]
  · rw [natChars, if_neg hn]
    cases hrev : (digitsLE n).reverse with
    | nil =>
      exact absurd (by simpa using congrArg List.reverse hrev) (digitsLE_ne_nil hn)
    | cons d ds =>
      have hall : ∀ x ∈ d :: ds, x < 10 := by
        intro x hx
        exact digitsLE_lt_ten n x (by rw [← List.mem_reverse, hrev]; exact hx)
      have hd10 : d < 10 := hall d (by simp)
      simp only [List.map_cons, List.cons_append, parseDigits,
        digitChar_isDigit d hd10, if_true, digitChar_toNat d hd10]
      rw [parseDigitsAux_run ds (fun x hx => hall x (by simp [hx])) d rest h]
      have : (d :: ds).foldl (fun a x => 10 * a + x) 0 = n := by
        rw [← hrev]; exact foldl_digitsLE n
      simp only [List.foldl_cons] at this
      simp only [Nat.mul_zero, Nat.zero_add] at this
      rw [this]

theorem parseStr_escChars (body rest : List Char) :
    parseStr (escChars body ++ '\"' :: rest) = some (body, rest) := by
  induction body with
  | nil => simp [escChars, parseStr]
  | cons c cs ih =>
    rw [escChars, List.append_assoc]
    by_cases h1 : c = '\"'
    · subst h1
      rw [escChar, if_pos rfl]
      simp [parseStr, parseEsc, ih]
    by_cases h2 : c = '\\'
    · subst h2
      rw [escChar, if_neg (by decide), if_pos rfl]
      simp [parseStr, parseEsc, ih]
    by_cases h3 : c = '\x08'
    · subst h3
      rw [escChar, if_neg (by decide), if_neg (by decide), if_pos rfl]
      simp [parseStr, parseEsc, ih]
    by_cases h4 : c = '\t'
    · subst h4
      rw [escChar, if_neg (by decide), if_neg (by decide), if_neg (by decide), if_pos rfl]
      simp [parseStr, parseEsc, ih]
    by_cases h5 : c = '\n'
    · subst h5
      rw [escChar, if_neg (by decide), if_neg (by decide), if_neg (by decide),
        if_neg (by decide), if_pos rfl]
      simp [parseStr, parseEsc, ih]
    by_cases h6 : c = '\x0c'
    · subst h6
      rw [escChar, if_neg (by decide), if_neg (by decide), if_neg (by decide),
        if_neg (by decide), if_neg (by decide), if_pos rfl]
      simp [parseStr, parseEsc, ih]
    by_cases h7 : c = '\r'
    · subst h7
      rw [escChar, if_neg (by decide), if_neg (by decide), if_neg (by decide),
        if_neg (by decide), if_neg (by decide), if_neg (by decide), if_pos rfl]
      simp [parseStr, parseEsc, ih]
    by_cases h8 : c.toNat < 32
    · rw [escChar, if_neg h1, if_neg h2, if_neg h3, if_neg h4, if_neg h5, if_neg h6,
        if_neg h7, if_pos h8]
      have hdiv : c.toNat / 16 < 16 := by omega
      have hmod : c.toNat % 16 < 16 := by omega
      have h0 : hexVal '0' = some 0 := by decide
      simp only [List.cons_append, List.nil_append]
      rw [parseStr, if_neg (by decide), if_pos rfl]
      rw [parseEsc, if_neg (by decide), if_neg (by decide), if_neg (by decide),
        if_neg (by decide), if_neg (by decide), if_neg (by decide), if_neg (by decide),
        if_pos rfl]
      simp only [List.getD, List.get?_cons_zero, List.get?_cons_succ,
        List.getElem?_cons_zero, List.getElem?_cons_succ,
        Option.getD_some, List.drop_succ_cons, List.drop_zero, h0,
        hexVal_hexChar _ hdiv, hexVal_hexChar _ hmod]
      have harith : ((0 * 16 + 0) * 16 + c.toNat / 16) * 16 + c.toNat % 16 = c.toNat := by
        omega
      simp only [harith, Char.ofNat_toNat, ih]
      rfl
    · rw [escChar, if_neg h1, if_neg h2, if_neg h3, if_neg h4, if_neg h5, if_neg h6,
        if_neg h7, if_neg h8]
      simp only [List.cons_append, List.nil_append, parseStr, if_neg h1, if_neg h2]
      rw [ih]
      rfl

theorem noDigitStart_cons {c : Char} (rest : List Char) (h : c.isDigit = false) :
    NoDigitStart (c :: rest) := h

theorem jstringify_head (v : JValue) :
    ∃ h t, jstringify v = h :: t ∧ h ≠ ']' := by
  cases v with
  | jnull => exact ⟨'n', ['u', 'l', 'l'], by simp [jstringify], by decide⟩
  | jbool b =>
    cases b with
    | false => exact ⟨'f', ['a', 'l', 's', 'e'], by simp [jstringify], by decide⟩
    | true => exact ⟨'t', ['r', 'u', 'e'], by simp [jstringify], by decide⟩
  | jnum n =>
    cases n with
    | ofNat m =>
      obtain ⟨h, t, heq, hdig⟩ := natChars_head m
      refine ⟨h, t, by simp [jstringify, intChars, heq], ?_⟩
      intro hcon
      rw [hcon] at hdig
      exact absurd hdig (by decide)
    | negSucc m => exact ⟨'-', natChars (m + 1), by simp [jstringify, intChars], by decide⟩
  | jstr s => exact ⟨'\"', escChars s.data ++ ['\"'], by simp [jstringify], by decide⟩
  | jarr xs => exact ⟨'[', strArr xs, by simp [jstringify], by decide⟩
  | jobj fs => exact ⟨lbrace, strObj fs, by simp [jstringify], by decide⟩

theorem jstringify_length_pos (v : JValue) : 1 ≤ (jstringify v).length := by
  obtain ⟨h, t, heq, _⟩ := jstringify_head v
  simp [heq]

theorem strArr_length_pos (vs : List JValue) : 1 ≤ (strArr vs).length := by
  cases vs with
  | nil => simp [strArr]
  | cons v vs => cases vs <;> simp [strArr] <;> omega

theorem strObj_length_pos (fs : List (String × JValue)) : 1 ≤ (strObj fs).length := by
  cases fs with
  | nil => simp [strObj]
  | cons f fs => obtain ⟨k, w⟩ := f; cases fs <;> simp [strObj] <;> omega

theorem parse_sound : ∀ fuel : Nat,
    (∀ v rest, (jstringify v).length < fuel → NoDigitStart rest →
      parseValue fuel (jstringify v ++ rest) = some (v, rest)) ∧
    (∀ v vs rest, (strArr (v :: vs)).length < fuel → NoDigitStart rest →
      parseItems fuel (strArr (v :: vs) ++ rest) = some (v :: vs, rest)) ∧
    (∀ k w fs rest, (strObj ((k, w) :: fs)).length < fuel → NoDigitStart rest →
      parseFields fuel (strObj ((k, w) :: fs) ++ rest) = some ((k, w) :: fs, rest)) := by
  intro fuel
  induction fuel with
  | zero =>
    refine ⟨?_, ?_, ?_⟩ <;> intro _ <;> intros <;> omega
  | succ fuel ih =>
    obtain ⟨ihV, ihA, ihO⟩ := ih
    refine ⟨?_, ?_, ?_⟩
    · intro v rest hlen hrest
      cases v with
      | jnull =>
        simp only [jstringify, List.cons_append]
        rw [parseValue, if_pos rfl]
        simp [afterLit]
      | jbool b =>
        cases b with
        | false =>
          simp only [jstringify, List.cons_append]
          rw [parseValue, if_neg (by decide), if_neg (by decide), if_pos rfl]
          simp [afterLit]
        | true =>
          simp only [jstringify, List.cons_append]
          rw [parseValue, if_neg (by decide), if_pos rfl]
          simp [afterLit]
      | jnum n =>
        cases n with
        | ofNat m =>
          obtain ⟨h, t, hnat, hdig⟩ := natChars_head m
          have hn1 : h ≠ 'n' := fun hc => absurd (hc ▸ hdig) (by decide)
          have hn2 : h ≠ 't' := fun hc => absurd (hc ▸ hdig) (by decide)
          have hn3 : h ≠ 'f' := fun hc => absurd (hc ▸ hdig) (by decide)
          have hn4 : h ≠ '\"' := fun hc => absurd (hc ▸ hdig) (by decide)
          have hn5 : h ≠ '[' := fun hc => absurd (hc ▸ hdig) (by decide)
          have hn6 : h ≠ lbrace := fun hc => absurd (hc ▸ hdig) (by decide)
          have hn7 : h ≠ '-' := fun hc => absurd (hc ▸ hdig) (by decide)
          simp only [jstringify, intChars, hnat, List.cons_append]
          rw [parseValue, if_neg hn1, if_neg hn2, if_neg hn3, if_neg hn4, if_neg hn5,
            if_neg hn6, if_neg hn7, if_pos hdig]
          rw [← List.cons_append, ← hnat, parseDigits_natChars m rest hrest]
          rfl
        | negSucc m =>
          simp only [jstringify, intChars, List.cons_append]
          rw [parseValue, if_neg (by decide), if_neg (by decide), if_neg (by decide),
            if_neg (by decide), if_neg (by decide), if_neg (by decide), if_pos rfl]
          rw [parseDigits_natChars (m + 1) rest hrest]
          rfl
      | jstr s =>
        simp only [jstringify, List.cons_append]
        rw [parseValue, if_neg (by decide), if_neg (by decide), if_neg (by decide),
          if_pos rfl]
        rw [List.append_assoc, List.singleton_append, parseStr_escChars s.data rest]
        simp [string_mk_data]
      | jarr xs =>
        cases xs with
        | nil =>
          simp only [jstringify, strArr, List.cons_append, List.singleton_append]
          rw [parseValue, if_neg (by decide), if_neg (by decide), if_neg (by decide),
            if_neg (by decide), if_pos rfl]
          simp
        | cons v vs =>
          simp only [jstringify, List.cons_append] at hlen ⊢
          rw [parseValue, if_neg (by decide), if_neg (by decide), if_neg (by decide),
            if_neg (by decide), if_pos rfl]
          obtain ⟨h, t, hv, hne⟩ := jstringify_head v
          have hhead : (strArr (v :: vs) ++ rest).head? = some h := by
            cases vs <;> simp [strArr, hv]
          rw [hhead, if_neg (by simp [hne])]
          rw [ihA v vs rest (by simp at hlen; omega) hrest]
          rfl
      | jobj fs =>
        cases fs with
        | nil =>
          simp only [jstringify, strObj, List.cons_append, List.singleton_append]
          rw [parseValue, if_neg (by decide), if_neg (by decide), if_neg (by decide),
            if_neg (by decide), if_neg (by decide), if_pos rfl]
          simp
        | cons f fs' =>
          obtain ⟨k, w⟩ := f
          simp only [jstringify, List.cons_append] at hlen ⊢
          rw [parseValue, if_neg (by decide), if_neg (by decide), if_neg (by decide),
            if_neg (by decide), if_neg (by decide), if_pos rfl]
          have hhead : (strObj ((k, w) :: fs') ++ rest).head? = some '\"' := by
            cases fs' <;> simp [strObj]
          rw [hhead, if_neg (by decide)]
          rw [ihO k w fs' rest (by simp at hlen; omega) hrest]
          rfl
    · intro v vs rest hlen hrest
      cases vs with
      | nil =>
        have hM : strArr [v] = jstringify v ++ [']'] := by simp [strArr]
        rw [hM] at hlen ⊢
        rw [List.append_assoc, List.singleton_append, parseItems]
        rw [ihV v (']' :: rest) (by simp at hlen; omega)
          (noDigitStart_cons rest (by decide))]
        simp
      | cons v2 vs' =>
        have hM : strArr (v :: v2 :: vs') = jstringify v ++ (',' :: strArr (v2 :: vs')) := by
          simp [strArr]
        rw [hM] at hlen ⊢
        rw [List.append_assoc, List.cons_append, parseItems]
        rw [ihV v (',' :: (strArr (v2 :: vs') ++ rest))
          (by have h1 := strArr_length_pos (v2 :: vs'); simp at hlen; omega)
          (noDigitStart_cons _ (by decide))]
        simp only [List.head?_cons, List.tail_cons, Option.some.injEq, reduceIte]
        rw [ihA v2 vs' rest (by have h1 := jstringify_length_pos v; simp at hlen; omega) hrest]
        rfl
    · intro k w fs rest hlen hrest
      cases fs with
      | nil =>
        have hM : strObj [(k, w)] =
            ('\"' :: (escChars k.data ++ ['\"'])) ++ ':' :: jstringify w ++ [rbrace] := by
          simp [strObj]
        rw [hM] at hlen ⊢
        simp only [List.cons_append, List.append_assoc, List.singleton_append, List.nil_append]
        rw [parseFields, if_pos rfl]
        rw [parseStr_escChars k.data (':' :: (jstringify w ++ rbrace :: rest))]
        simp only [List.head?_cons, List.tail_cons, Option.some.injEq, reduceIte]
        rw [ihV w (rbrace :: rest) (by simp at hlen; omega)
          (noDigitStart_cons rest (by decide))]
        have hrb : (rbrace = ',') = False := by decide
        simp [hrb, string_mk_data]
      | cons f2 fs'' =>
        have hM : strObj ((k, w) :: f2 :: fs'') =
            ('\"' :: (escChars k.data ++ ['\"'])) ++
              ':' :: jstringify w ++ (',' :: strObj (f2 :: fs'')) := by
          simp [strObj]
        rw [hM] at hlen ⊢
        simp only [List.cons_append, List.append_assoc, List.singleton_append, List.nil_append]
        rw [parseFields, if_pos rfl]
        rw [parseStr_escChars k.data (':' :: (jstringify w ++ (',' :: (strObj (f2 :: fs'') ++ rest))))]
        simp only [List.head?_cons, List.tail_cons, Option.some.injEq, reduceIte]
        rw [ihV w (',' :: (strObj (f2 :: fs'') ++ rest))
          (by have h1 := strObj_length_pos (f2 :: fs''); simp at hlen; omega)
          (noDigitStart_cons _ (by decide))]
        simp only [List.head?_cons, List.tail_cons, Option.some.injEq, reduceIte]
        obtain ⟨k2, w2⟩ := f2
        rw [ihO k2 w2 fs'' rest
          (by have h1 := jstringify_length_pos w; simp at hlen; omega) hrest]
        simp [string_mk_data]

theorem jparse_jstringify (v : JValue) : jparse (jstringify v) = some v := by
  have h := (parse_sound ((jstringify v).length + 1)).1 v []
    (by omega) trivial
  rw [List.append_nil] at h
  rw [jparse, h]

/-! ### Lemmas on JavaScript objects -/

theorem objGet_objSet {α : Type} (l : List (String × α)) (k : String) (v : α) :
    objGet (objSet l k v) k = some v := by
  induction l with
  | nil => simp [objSet, objGet]
  | cons kv rest ih =>
    obtain ⟨k', v'⟩ := kv
    by_cases h : k' = k
    · subst h; simp [objSet, objGet]
    · simp [objSet, objGet, h, ih]

theorem objSet_fst_subset {α : Type} (l : List (String × α)) (k : String) (v : α) :
    ((objSet l k v).map Prod.fst) ⊆ k :: l.map Prod.fst := by
  induction l with
  | nil =>
    intro x hx
    simpa [objSet] using hx
  | cons kv rest ih =>
    obtain ⟨k0, v0⟩ := kv
    intro x hx
    by_cases hk : k0 = k
    · subst hk
      simp only [objSet, eq_self_iff_true, if_true, List.map_cons, List.mem_cons] at hx
      simp only [List.map_cons, List.mem_cons]
      tauto
    · simp only [objSet, if_neg hk, List.map_cons, List.mem_cons] at hx
      simp only [List.map_cons, List.mem_cons]
      rcases hx with hx | hx
      · tauto
      · have hx2 := ih hx
        simp only [List.mem_cons] at hx2
        tauto

/-! ### Lemmas on `FormAutoSave.saveDraft` -/

/-- The per-entry relation between two form contents that may differ only at
fields named `website` or `password`. -/
def DraftEquiv (a b : String × String) : Prop :=
  a.1 = b.1 ∧ (a.1 ≠ "website" → a.1 ≠ "password" → a.2 = b.2)

theorem saveDraft_go_congr (f1 f2 : List (String × String))
    (h : List.Forall₂ DraftEquiv f1 f2) :
    ∀ acc : List (String × String),
      f1.foldl
        (fun data kv =>
          if kv.1 ≠ "website" ∧ kv.1 ≠ "password" then objSet data kv.1 kv.2 else data) acc =
      f2.foldl
        (fun data kv =>
          if kv.1 ≠ "website" ∧ kv.1 ≠ "password" then objSet data kv.1 kv.2 else data) acc := by
  induction h with
  | nil => intro acc; rfl
  | cons ha _ ih =>
    intro acc
    rename_i a b l1 l2 _
    obtain ⟨hk, hv⟩ := ha
    simp only [List.foldl_cons]
    by_cases hcond : a.1 ≠ "website" ∧ a.1 ≠ "password"
    · rw [if_pos hcond, if_pos (by rw [← hk]; exact hcond), ← hk,
        ← hv hcond.1 hcond.2]
      exact ih _
    · rw [if_neg hcond, if_neg (by rw [← hk]; exact hcond)]
      exact ih _

theorem saveDraft_go_excluded (f : List (String × String)) :
    ∀ acc : List (String × String),
      (∀ k ∈ acc.map Prod.fst, k ≠ "website" ∧ k ≠ "password") →
      ∀ k ∈ (f.foldl
        (fun data kv =>
          if kv.1 ≠ "website" ∧ kv.1 ≠ "password" then objSet data kv.1 kv.2 else data)
        acc).map Prod.fst, k ≠ "website" ∧ k ≠ "password" := by
  induction f with
  | nil => intro acc hacc; simpa using hacc
  | cons kv rest ih =>
    intro acc hacc
    simp only [List.foldl_cons]
    by_cases hcond : kv.1 ≠ "website" ∧ kv.1 ≠ "password"
    · rw [if_pos hcond]
      refine ih _ ?_
      intro k hk
      rcases List.mem_cons.mp (objSet_fst_subset acc kv.1 kv.2 hk) with h | h
      · exact h ▸ hcond
      · exact hacc k h
    · rw [if_neg hcond]
      exact ih _ hacc

/-- Closed form of the rounded percentage: for a positive total the rational
computation equals an integer division. -/
theorem jsRound_ratio (c t : Nat) (ht : 0 < t) :
    jsRound (((c : ℚ) / t) * 100) = (200 * (c : ℤ) + t) / (2 * (t : ℤ)) := by
  have htq : (t : ℚ) ≠ 0 := by positivity
  have hq : ((c : ℚ) / t) * 100 + 1 / 2 =
      ((200 * (c : ℤ) + t : ℤ) : ℚ) / ((2 * t : ℕ) : ℚ) := by
    field_simp
    ring
  rw [jsRound, hq, Rat.floor_intCast_div_natCast]
  push_cast
  norm_num

/-! ### Claim theorems -/

/-- C1: at startup `loadState` reads the record saved under the key
`'bible-planner-state'` and merges it into the defaults: every field present
in the saved record ends up with the saved value, every absent field keeps
its default (`'calendar'`, `'meskerem'`, `'chronological'`, empty maps,
`false`, `false`, `'07:00'`), and when no record is saved the state equals
the defaults. -/
theorem c1_loadState_merges_into_defaults :
    ∀ fetch : String → Option PartialState,
      (fetch "bible-planner-state" = none → loadState fetch = defaultState) ∧
      (∀ p, fetch "bible-planner-state" = some p →
        (loadState fetch).activeTab = p.activeTab.getD "calendar" ∧
        (loadState fetch).selectedMonth = p.selectedMonth.getD "meskerem" ∧
        (loadState fetch).selectedPlan = p.selectedPlan.getD "chronological" ∧
        (loadState fetch).expandedWeeks = p.expandedWeeks.getD [] ∧
        (loadState fetch).completedReadings = p.completedReadings.getD [] ∧
        (loadState fetch).showStats = p.showStats.getD false ∧
        (loadState fetch).darkMode = p.darkMode.getD false ∧
        (loadState fetch).reminderTime = p.reminderTime.getD "07:00") := by
  intro fetch
  constructor
  · intro h
    simp [loadState, h]
  · intro p hp
    simp [loadState, hp, mergeState, defaultState]

/-- C1 witness: a missing record yields the defaults, and a saved record
with one field present overrides exactly that field. -/
theorem c1_witness :
    loadState (fun _ => none) = defaultState ∧
    (loadState (fun _ => some { activeTab := some "reading" })).activeTab = "reading" ∧
    (loadState (fun _ => some { activeTab := some "reading" })).selectedMonth = "meskerem" := by
  refine ⟨(c1_loadState_merges_into_defaults (fun _ => none)).1 rfl, ?_, ?_⟩
  · have h := ((c1_loadState_merges_into_defaults
      (fun _ => some { activeTab := some "reading" })).2 _ rfl).1
    simpa using h
  · have h := ((c1_loadState_merges_into_defaults
      (fun _ => some { activeTab := some "reading" })).2 _ rfl).2.1
    simpa using h

/-- C2: `setState` replaces exactly the fields named in the update — every
field absent from the update is unchanged, every present field takes the new
value — and schedules a debounced write of the entire resulting state record
under the key `'bible-planner-state'`. -/
theorem c2_setState_frame_and_scheduled_save :
    ∀ (s : State) (p : PartialState),
      (setState s p).2.key = "bible-planner-state" ∧
      (setState s p).2.value = (setState s p).1 ∧
      (p.activeTab = none → (setState s p).1.activeTab = s.activeTab) ∧
      (∀ v, p.activeTab = some v → (setState s p).1.activeTab = v) ∧
      (p.selectedMonth = none → (setState s p).1.selectedMonth = s.selectedMonth) ∧
      (∀ v, p.selectedMonth = some v → (setState s p).1.selectedMonth = v) ∧
      (p.selectedPlan = none → (setState s p).1.selectedPlan = s.selectedPlan) ∧
      (∀ v, p.selectedPlan = some v → (setState s p).1.selectedPlan = v) ∧
      (p.expandedWeeks = none → (setState s p).1.expandedWeeks = s.expandedWeeks) ∧
      (∀ v, p.expandedWeeks = some v → (setState s p).1.expandedWeeks = v) ∧
      (p.completedReadings = none →
        (setState s p).1.completedReadings = s.completedReadings) ∧
      (∀ v, p.completedReadings = some v → (setState s p).1.completedReadings = v) ∧
      (p.showStats = none → (setState s p).1.showStats = s.showStats) ∧
      (∀ v, p.showStats = some v → (setState s p).1.showStats = v) ∧
      (p.darkMode = none → (setState s p).1.darkMode = s.darkMode) ∧
      (∀ v, p.darkMode = some v → (setState s p).1.darkMode = v) ∧
      (p.reminderTime = none → (setState s p).1.reminderTime = s.reminderTime) ∧
      (∀ v, p.reminderTime = some v → (setState s p).1.reminderTime = v) := by
  intro s p
  refine ⟨rfl, rfl, ?_, ?_, ?_, ?_, ?_, ?_, ?_, ?_, ?_, ?_, ?_, ?_, ?_, ?_, ?_, ?_⟩ <;>
    first
      | (intro h; simp [setState, mergeState, h])
      | (intro v h; simp [setState, mergeState, h])

/-- C2 witness: a one-field update changes that field, keeps another, and
schedules the save of the new state under the fixed key. -/
theorem c2_witness :
    (setState defaultState { activeTab := some "reading" }).2.key = "bible-planner-state" ∧
    (setState defaultState { activeTab := some "reading" }).1.activeTab = "reading" ∧
    (setState defaultState { activeTab := some "reading" }).1.selectedMonth =
      defaultState.selectedMonth := by
  have h := c2_setState_frame_and_scheduled_save defaultState { activeTab := some "reading" }
  exact ⟨h.1, h.2.2.2.1 "reading" rfl, h.2.2.2.2.1 rfl⟩

/-- C3 counterexample: the record the scheduled save serialises has fields
beyond the five listed in the claim — at the default state its key set is
not contained in them (`showStats`, `darkMode` and `reminderTime` are also
persisted). -/
theorem c3_counterexample :
    ¬ (objKeys (encodeState ((saveStateDebounced defaultState).value)) ⊆
        ["activeTab", "selectedMonth", "selectedPlan", "expandedWeeks",
         "completedReadings"]) := by
  decide

/-- C3 (amended): the only persisted entity is the flat state record, written
whole under the single key `'bible-planner-state'`; its fields are the five
listed in the claim plus `showStats`, `darkMode` and `reminderTime`. -/
theorem c3_amended_persisted_record :
    ∀ s : State,
      (saveStateDebounced s).key = "bible-planner-state" ∧
      (saveStateDebounced s).value = s ∧
      objKeys (encodeState s) =
        ["activeTab", "selectedMonth", "selectedPlan", "expandedWeeks",
         "completedReadings", "showStats", "darkMode", "reminderTime"] := by
  intro s
  exact ⟨rfl, rfl, rfl⟩

/-- C4: a successful `StorageManager.set` followed by `StorageManager.get`
on the same key returns a value equal to the one stored, in the native
backend (a `JSON.stringify`/`JSON.parse` round-trip) and in the in-memory
fallback backend. -/
theorem c4_storage_roundtrip :
    ∀ (key : String) (v deflt : JValue) (store : List (String × List Char))
      (mem : List (String × JValue)),
      (smSetNative store key v).2 = true ∧
      smGetNative (smSetNative store key v).1 key deflt = v ∧
      (smSetMemory mem key v).2 = true ∧
      smGetMemory (smSetMemory mem key v).1 key deflt = v := by
  intro key v deflt store mem
  refine ⟨rfl, ?_, rfl, ?_⟩
  · simp [smGetNative, smSetNative, objGet_objSet, jparse_jstringify]
  · simp [smGetMemory, smSetMemory, objGet_objSet]

/-- C5: the reading identifiers generated for all assignable units of the
three plans (chronological weeks, 90-day sections and days, discipleship
weeks) are pairwise distinct. -/
theorem c5_reading_ids_nodup : allReadingIds.Nodup := by decide

/-- C6: the content data — months, holy days, ministry events, the
chronological plan, the 90-day plan, and the discipleship weeks — is
unchanged by every planner operation: state mutation via `setState`,
toggling a reading, importing progress, and rendering. -/
theorem c6_content_immutable :
    ∀ (a : App) (p : PartialState) (rid : String) (data : ImportData),
      contentOf (appSetState a p).1 = contentOf a ∧
      contentOf (toggleReading a rid).1 = contentOf a ∧
      contentOf (importProgress a data).1 = contentOf a ∧
      (renderChronologicalPlan a).1 = a ∧
      (renderNT90Plan a).1 = a ∧
      (renderDiscipleship a).1 = a := by
  intro a p rid data
  exact ⟨rfl, rfl, rfl, rfl, rfl, rfl⟩

/-- C7: both example identifiers of the spec are generable:
`chrono-meskerem-1` names week 1 of month `meskerem` in the chronological
plan, and `nt90-3-day-24` names day 24 inside the section with days `24-30`
at index 3 of the 90-day plan. -/
theorem c7_example_ids_generable :
    chronoWeekId "meskerem" 1 = "chrono-meskerem-1" ∧
    "chrono-meskerem-1" ∈ allReadingIds ∧
    (List.lookup "meskerem" chronologicalPlan).map
      (fun mp => mp.weeklyBreakdown.contains 1) = some true ∧
    ntDayId (ntSectionId 3) 24 = "nt90-3-day-24" ∧
    "nt90-3-day-24" ∈ allReadingIds ∧
    ntIntensive[3]?.map NTSection.days = some "24-30" ∧
    ntIntensive[3]?.map (fun sec => sec.dailyBreakdown.contains 24) = some true := by
  decide

/-- C8: `getProgressInsights` reports the count of truthy completion
entries, the total minus that count (which can go negative), and the
unclamped rounded percentage `round(100 * completed / total)`; the total
`updateProgress` passes is `getTotalReadings = 49` (chronological weeks
only), so a completion map that also holds 90-day or discipleship entries
can push the percentage above 100 and the remainder below 0. -/
theorem c8_progress_insights :
    (∀ (c : List (String × Bool)) (t : Nat), 0 < t →
      (getProgressInsights c t).readingsCompleted = countCompleted c ∧
      (getProgressInsights c t).readingsRemaining = (t : ℤ) - countCompleted c ∧
      (getProgressInsights c t).percentComplete =
        jsRound ((100 * countCompleted c : ℚ) / t)) ∧
    getTotalReadings = 49 ∧
    ∃ c' : List (String × Bool),
      100 < (getProgressInsights c' getTotalReadings).percentComplete ∧
      (getProgressInsights c' getTotalReadings).readingsRemaining < 0 := by
  refine ⟨?_, rfl, ?_⟩
  · intro c t ht
    refine ⟨rfl, rfl, ?_⟩
    show jsRound (((countCompleted c : ℚ) / t) * 100) = _
    congr 1
    ring
  · refine ⟨(List.range 50).map (fun i => (toString i, true)), ?_, by decide⟩
    have hc : countCompleted ((List.range 50).map (fun i => (toString i, true))) = 50 := by
      decide
    have hp :
        (getProgressInsights ((List.range 50).map (fun i => (toString i, true)))
            getTotalReadings).percentComplete =
          jsRound (((countCompleted ((List.range 50).map (fun i => (toString i, true))) : ℚ) /
            (getTotalReadings : Nat)) * 100) := rfl
    rw [hp, jsRound_ratio _ _ (by decide), hc]
    decide

/-- C8 witness: the formulas at a concrete one-entry map and total 49. -/
theorem c8_witness :
    (getProgressInsights [("chrono-meskerem-1", true)] 49).readingsCompleted =
      countCompleted [("chrono-meskerem-1", true)] ∧
    (getProgressInsights [("chrono-meskerem-1", true)] 49).percentComplete =
      jsRound ((100 * countCompleted [("chrono-meskerem-1", true)] : ℚ) / 49) := by
  have h := c8_progress_insights.1 [("chrono-meskerem-1", true)] 49 (by decide)
  exact ⟨h.1, h.2.2⟩

/-- C9: `calculateStreak` returns the number of truthy completion entries
capped at 30 — it never exceeds 30 and depends only on that count, not on
dates or identifiers. -/
theorem c9_streak_min_count_30 :
    ∀ c : List (String × Bool),
      calculateStreak c = min (countCompleted c) 30 ∧ calculateStreak c ≤ 30 := by
  intro c
  have hlen :
      ((c.filter (fun kv => kv.2)).insertionSort (fun a b => ¬ a.1 < b.1)).length =
        countCompleted c :=
    List.length_insertionSort _ _
  have h1 : calculateStreak c = min (countCompleted c) 30 := by
    simp only [calculateStreak, hlen]
    split
    · rfl
    · omega
  exact ⟨h1, by omega⟩

/-- C10: `FormAutoSave.saveDraft` persists only fields named neither
`website` nor `password`: the draft contains no such key, and two form
contents that differ only in the values of `website` or `password` fields
produce identical drafts, so a password value never reaches persistent
storage. -/
theorem c10_saveDraft_excludes_password :
    (∀ f : List (String × String),
      ∀ k ∈ (saveDraft f).map Prod.fst, k ≠ "website" ∧ k ≠ "password") ∧
    (∀ f1 f2 : List (String × String),
      List.Forall₂ DraftEquiv f1 f2 → saveDraft f1 = saveDraft f2) := by
  constructor
  · intro f
    exact saveDraft_go_excluded f [] (by simp)
  · intro f1 f2 h
    exact saveDraft_go_congr f1 f2 h []

/-- C10 witness: two concrete forms differing only in the password value
produce the same draft, and the key surviving into a concrete draft is not an
excluded one. -/
theorem c10_witness :
    saveDraft [("email", "a"), ("password", "x")] =
      saveDraft [("email", "a"), ("password", "y")] ∧
    ("email" ≠ "website" ∧ "email" ≠ "password") := by
  constructor
  · refine c10_saveDraft_excludes_password.2 _ _ ?_
    refine List.Forall₂.cons ⟨rfl, fun _ _ => rfl⟩ ?_
    refine List.Forall₂.cons ⟨rfl, fun _ h => absurd rfl h⟩ List.Forall₂.nil
  · exact c10_saveDraft_excludes_password.1 [("email", "a")] "email" (by decide)

end BiblePlanner
